import Mathlib

/-!
Shallow embedding of the content-script command executor
(`src/content/commands.js` of the foxygestures repository), covering:

* `padSame` (PaddingAwareFormatter), lines 87-91;
* `alterPageNumber` (PaginationRewriter) with its three replacer
  strategies, lines 96-161;
* `onDelegateCommand` (CommandDispatcher), lines 64-73, together with the
  handler table `commandHandlers`, lines 9-18;
* the page transforms of `commandPageUp` / `commandPageDown`,
  lines 225-237;
* `easeOutQuad` / `scrollYEase` (ScrollAnimator), lines 176-210.

URLs are modelled as `List Char` (the content of the JavaScript string
`window.location.href` minus the origin, which the source strips before
matching and re-prepends unchanged).  JavaScript numbers reaching the
page transforms are modelled by `JsNum`: digit runs parse to exact
integers (`JsNum.num`), and the only other value that can pass the
source's `value >= 0` test on a split segment is `Infinity`
(`JsNum.inf`); see `validSegValue`.  Navigation is modelled by returning
the rewritten URL (`Option`) instead of assigning `window.location.href`.
-/

/-- JavaScript word character, as used by the regex metacharacter `\b`
in a non-unicode regex: `[A-Za-z0-9_]`. -/
def isWordChar (c : Char) : Bool := c.isAlpha || c.isDigit || c == '_'

/-- Split off the maximal leading run of decimal digits
(the greedy `\d+` of the source regexes, and the separator of
`url.split(/([\d]+)/)` in the generic replacer). -/
def splitDigits : List Char → List Char × List Char
  | [] => ([], [])
  | c :: cs =>
    if c.isDigit then (c :: (splitDigits cs).1, (splitDigits cs).2)
    else ([], c :: cs)

/-- The regex word-boundary test `\b` placed after a digit: it holds at
end of input or when the next character is not a word character. -/
def tailBoundary : List Char → Bool
  | [] => true
  | c :: _ => !isWordChar c

/-- Head of the list is not a decimal digit (trivially true for `[]`). -/
def noDigitHead : List Char → Bool
  | [] => true
  | c :: _ => !c.isDigit

/-- Numeric value of a decimal digit character. -/
def digitVal (c : Char) : Nat := c.toNat - 48

/-- Value of a decimal digit run, as computed by JavaScript
`Number("...")` on a pure digit string (exact, most significant first). -/
def digitsToNat (ds : List Char) : Nat :=
  ds.foldl (fun a c => a * 10 + digitVal c) 0

/-- Little-endian decimal digits of `n`, fuel-driven so that the
definition is structurally recursive and evaluates inside the kernel. -/
def natToDigitsRev : Nat → Nat → List Char
  | 0, _ => []
  | fuel + 1, n =>
    Char.ofNat (48 + n % 10) :: (if n < 10 then [] else natToDigitsRev fuel (n / 10))

/-- Decimal string of `n`, as produced by JavaScript `String(n)` for a
non-negative integer. -/
def natToDigits (n : Nat) : List Char := (natToDigitsRev (n + 1) n).reverse

/-- The JavaScript numbers that the page transforms can receive.  Digit
runs parse exactly (`num`, always non-negative from a digit run, but the
type admits negatives so that clamping is a meaningful statement);
`Infinity` is the one further value a digit-free split segment can
produce under `Number(...) >= 0` (see `validSegValue`). -/
inductive JsNum where
  | num : Int → JsNum
  | inf : JsNum
deriving DecidableEq

/-- JavaScript `String(i)` for an exact integer. -/
def intToChars (i : Int) : List Char :=
  if i < 0 then '-' :: natToDigits i.natAbs else natToDigits i.toNat

/-- JavaScript `String(v)` on the modelled numbers. -/
def jsNumToChars : JsNum → List Char
  | .num i => intToChars i
  | .inf => "Infinity".data

/-- JavaScript `s.padStart(target, c)` with a one-character pad: prepend
copies of `c` until the length is at least `target`. -/
def padStart (s : List Char) (target : Nat) (c : Char) : List Char :=
  List.replicate (target - s.length) c ++ s

/-- Source lines 87-91: `padSame(original, newValue)` — if the original
token begins with the character `0`, left-pad the new value with zeros
to the original's length (`original[0]` of an empty string is
`undefined`, so the empty original takes the second branch). -/
def padSame (original newValue : List Char) : List Char :=
  if original.head? = some '0' then padStart newValue original.length '0'
  else newValue

/-- Source line 227: the `pageUp` transform `p => p + 1`
(`Infinity + 1` is `Infinity`). -/
def incTransform : JsNum → JsNum
  | .num i => .num (i + 1)
  | .inf => .inf

/-- Source line 235: the `pageDown` transform `p => (p > 0) ? (p - 1) : 0`
(`Infinity > 0` holds, and `Infinity - 1` is `Infinity`). -/
def decClampTransform : JsNum → JsNum
  | .num i => if 0 < i then .num (i - 1) else .num 0
  | .inf => .inf

/-! ### Strategy 1: the query-parameter replacer (source lines 99-102)

`url.replace(/\b(page|p)=(\d+)\b/i, (m, p1, p2) => p1 + '=' + padSame(p2,
String(callback(Number(p2)))))`.  A JavaScript non-global `replace`
rewrites only the leftmost match; the scan attempts a match at each
position from left to right.  Since both alternatives of the pattern
start with `p`/`P` (a word character), the leading `\b` holds exactly
when the preceding character is absent or not a word character. -/

def isPChar (c : Char) : Bool := c == 'p' || c == 'P'
def isAChar (c : Char) : Bool := c == 'a' || c == 'A'
def isGChar (c : Char) : Bool := c == 'g' || c == 'G'
def isEChar (c : Char) : Bool := c == 'e' || c == 'E'

/-- Case-insensitive match of the literal `page` (regex `/page/i`). -/
def isPageWord (p a g e : Char) : Bool :=
  isPChar p && isAChar a && isGChar g && isEChar e

/-- Match `\d+\b` at `s` and build `key ++ padSame(digits, String(f(Number
digits)))` — the replacement shape shared by both regex replacers (`key`
is the already-matched, case-preserved capture `p1`, plus `=` for
strategy 1).  Returns the replacement together with the unconsumed rest. -/
def matchDigitsTail (f : JsNum → JsNum) (key : List Char) (s : List Char) :
    Option (List Char × List Char) :=
  if (splitDigits s).1 ≠ [] ∧ tailBoundary (splitDigits s).2 then
    some (key ++ padSame (splitDigits s).1
            (jsNumToChars (f (.num (digitsToNat (splitDigits s).1 : Int)))),
          (splitDigits s).2)
  else none

/-- Match `=(\d+)\b` after the key of strategy 1. -/
def matchEqDigits (f : JsNum → JsNum) (key : List Char) (s : List Char) :
    Option (List Char × List Char) :=
  match s with
  | c :: rest => if c = '=' then matchDigitsTail f (key ++ ['=']) rest else none
  | [] => none

/-- First alternative of strategy 1 at the current position: `page=(\d+)\b`. -/
def tryMatch1Page (f : JsNum → JsNum) (s : List Char) :
    Option (List Char × List Char) :=
  match s with
  | p :: a :: g :: e :: rest =>
    if isPageWord p a g e then matchEqDigits f [p, a, g, e] rest else none
  | _ => none

/-- Second alternative of strategy 1 at the current position: `p=(\d+)\b`. -/
def tryMatch1P (f : JsNum → JsNum) (s : List Char) :
    Option (List Char × List Char) :=
  match s with
  | p :: rest => if isPChar p then matchEqDigits f [p] rest else none
  | [] => none

/-- Strategy-1 match attempt at one position.  The regex alternation
`(page|p)` tries `page` first and backtracks to `p` at the same position
when the remainder `=(\d+)\b` fails after `page`. -/
def tryMatch1At (f : JsNum → JsNum) (s : List Char) :
    Option (List Char × List Char) :=
  match tryMatch1Page f s with
  | some r => some r
  | none => tryMatch1P f s

/-- Strategy-2 match attempt at one position (source lines 104-107):
`(page\/?)(\d+)\b`, i.e. `page` with an optional `/` before the digits.
When a `/` is present but no digit run with a word boundary follows it,
the regex backtracks to the empty `\/?`, which then requires a digit at
the `/` itself and necessarily fails — so only the consuming alternative
can succeed and no separate backtracking branch is needed. -/
def tryMatch2At (f : JsNum → JsNum) (s : List Char) :
    Option (List Char × List Char) :=
  match s with
  | p :: a :: g :: e :: rest =>
    if isPageWord p a g e then
      match rest with
      | c :: rest2 =>
        if c = '/' then matchDigitsTail f [p, a, g, e, '/'] rest2
        else matchDigitsTail f [p, a, g, e] rest
      | [] => matchDigitsTail f [p, a, g, e] []
    else none
  | _ => none

/-- Left-to-right scan of a JavaScript non-global `replace`: attempt a
match at every position, rewrite the first successful one, and copy
everything else verbatim.  `pw` records whether the previous character
was a word character (`false` at the start of the string), which decides
the leading `\b` of both patterns. -/
def scanWith (tryAt : List Char → Option (List Char × List Char)) :
    Bool → List Char → List Char
  | _, [] => []
  | pw, c :: cs =>
    if pw then c :: scanWith tryAt (isWordChar c) cs
    else
      match tryAt (c :: cs) with
      | some (rep, rest) => rep ++ rest
      | none => c :: scanWith tryAt (isWordChar c) cs

/-- Source lines 99-102: the query-parameter replacer. -/
def replacer1 (f : JsNum → JsNum) (url : List Char) : List Char :=
  scanWith (tryMatch1At f) false url

/-- Source lines 104-107: the `pageXX` / `page/XX` replacer. -/
def replacer2 (f : JsNum → JsNum) (url : List Char) : List Char :=
  scanWith (tryMatch2At f) false url

/-! ### Strategy 3: the generic replacer (source lines 111-146) -/

/-- `url.split(/([\d]+)/)`: alternating digit-free and digit-run
segments, beginning and ending with a (possibly empty) digit-free
segment, as JavaScript `split` with a capturing group produces. -/
def splitSegs : List Char → List (List Char)
  | [] => [[]]
  | c :: cs =>
    if c.isDigit then
      match splitSegs cs with
      | [] :: d :: rest => [] :: (c :: d) :: rest
      | segs => [] :: [c] :: segs
    else
      match splitSegs cs with
      | seg :: rest => (c :: seg) :: rest
      | [] => [[c]]

/-- Does a segment contain `?` or `#` (source line 117's
`indexOf` tests)? -/
def hasQueryOrHash (seg : List Char) : Bool :=
  seg.any fun c => c == '?' || c == '#'

/-- The `reduce` of source lines 116-118, accumulator `n` and index `i`. -/
def lastPathSegmentAux : Nat → Nat → List (List Char) → Nat
  | n, _, [] => n
  | n, i, seg :: rest =>
    lastPathSegmentAux (if hasQueryOrHash seg then min n i else n) (i + 1) rest

/-- Index of the earliest segment containing `?` or `#`, defaulting to
the final segment index. -/
def lastPathSegment (segs : List (List Char)) : Nat :=
  lastPathSegmentAux (segs.length - 1) 0 segs

/-- JavaScript whitespace accepted by `Number(...)` (ASCII forms plus
NBSP and the BOM; other exotic Unicode space characters cannot occur in
an `href`, which arrives percent-encoded). -/
def jsWhitespace (c : Char) : Bool :=
  c == ' ' || c == '\t' || c == '\n' || c == '\r' ||
  c == Char.ofNat 11 || c == Char.ofNat 12 || c == Char.ofNat 160 ||
  c == Char.ofNat 65279

/-- The whitespace trimming `Number(...)` performs before parsing. -/
def trimJs (s : List Char) : List Char :=
  ((s.dropWhile jsWhitespace).reverse.dropWhile jsWhitespace).reverse

/-- Source lines 124-125 / 136-137: `value = segments[i].length ?
Number(segments[i]) : Number.NaN` followed by the test `value >= 0`,
returning the value when the test passes.  The loops only ever apply
this to segments of `splitSegs`, which are either pure digit runs
(parsing exactly) or digit-free; on a digit-free string `Number` yields
`NaN` — failing the test — except for a whitespace-only string (`0`) and
the `Infinity` / `+Infinity` forms (`-Infinity` is negative and fails
the test). -/
def validSegValue (s : List Char) : Option JsNum :=
  if s = [] then none
  else if s.all Char.isDigit then some (.num (digitsToNat s : Int))
  else if s.all jsWhitespace then some (.num 0)
  else if trimJs s = "Infinity".data ∨ trimJs s = "+Infinity".data then some .inf
  else none

/-- One iteration body of the two scanning loops (source lines 124-127 /
136-138): when segment `i` passes the `value >= 0` test, replace it by
`padSame(segments[i], String(callback(value)))`. -/
def scanSegAt (f : JsNum → JsNum) (segs : List (List Char)) (i : Nat) :
    Option (List (List Char)) :=
  match validSegValue (segs.getD i []) with
  | some v => some (segs.set i (padSame (segs.getD i []) (jsNumToChars (f v))))
  | none => none

/-- Source lines 122-130: scan from `lastPathSegment` down to `0` and
rewrite the first (i.e. rightmost) segment that passes the test. -/
def backScan (f : JsNum → JsNum) (segs : List (List Char)) : Nat → Option (List (List Char))
  | 0 => scanSegAt f segs 0
  | i + 1 =>
    match scanSegAt f segs (i + 1) with
    | some r => some r
    | none => backScan f segs i

/-- Source lines 132-142, fuelled by the number of remaining indices. -/
def fwdScanAux (f : JsNum → JsNum) (segs : List (List Char)) : Nat → Nat → Option (List (List Char))
  | _, 0 => none
  | i, fuel + 1 =>
    match scanSegAt f segs i with
    | some r => some r
    | none => fwdScanAux f segs (i + 1) fuel

/-- Source lines 132-142: scan from `lastPathSegment` forward to the end
and rewrite the first segment that passes the test. -/
def fwdScan (f : JsNum → JsNum) (segs : List (List Char)) (i : Nat) :
    Option (List (List Char)) :=
  fwdScanAux f segs i (segs.length - i)

/-- Source lines 111-146: the generic replacer — split, locate the
boundary segment, scan backward through the path, fall back to a forward
scan through the query/fragment, and reassemble with `join`. -/
def replacer3 (f : JsNum → JsNum) (url : List Char) : List Char :=
  match backScan f (splitSegs url) (lastPathSegment (splitSegs url)) with
  | some segs2 => segs2.flatten
  | none =>
    match fwdScan f (splitSegs url) (lastPathSegment (splitSegs url)) with
    | some segs2 => segs2.flatten
    | none => (splitSegs url).flatten

/-- Source lines 153-160: try each replacer in order on the origin-less
part of the URL; the first whose output differs from its input wins and
its output is navigated to (modelled as `some newPart`); if none
changes the URL the function returns `false` (modelled as `none`). -/
def alterPageNumber (f : JsNum → JsNum) (noOriginPart : List Char) :
    Option (List Char) :=
  if replacer1 f noOriginPart ≠ noOriginPart then some (replacer1 f noOriginPart)
  else if replacer2 f noOriginPart ≠ noOriginPart then some (replacer2 f noOriginPart)
  else if replacer3 f noOriginPart ≠ noOriginPart then some (replacer3 f noOriginPart)
  else none

/-! ### Command dispatch (source lines 9-18 and 64-73) -/

/-- The keys of the `commandHandlers` object literal, source lines 9-18. -/
def commandNames : List String :=
  ["historyBack", "historyForward", "pageUp", "pageDown",
   "reloadFrame", "scrollTop", "scrollBottom", "userScript"]

/-- Function-valued properties inherited by every object literal from
`Object.prototype` whose invocation as `commandHandlers[name](data)`
returns normally: for these names the lookup on line 71 does not yield
`undefined`, so the call silently succeeds and performs no command.
(`__defineGetter__`, `__defineSetter__` and `__proto__` also resolve on
the prototype but their invocation throws, so they are excluded.) -/
def objectProtoSilentMethods : List String :=
  ["toString", "toLocaleString", "valueOf", "hasOwnProperty",
   "isPrototypeOf", "propertyIsEnumerable", "constructor",
   "__lookupGetter__", "__lookupSetter__"]

/-- The command envelope fields the dispatcher consults:
`data.command` and `data.context.scriptFrameId`.  `ContextId`s are
JavaScript numbers, modelled as `Nat`; an absent `scriptFrameId` is
`none`. -/
structure CommandEnvelope where
  command : String
  scriptFrameId : Option Nat
deriving DecidableEq

/-- Outcome of `onDelegateCommand` in one frame.  `executed` — a handler
from the table ran; `inheritedCall` — `commandHandlers[cmd]` resolved to
an inherited `Object.prototype` function which ran and did nothing;
`typeError` — the lookup yielded `undefined` (or the non-callable
`__proto__`) and calling it threw a `TypeError`; `rebroadcast` — the
envelope was passed down the frame hierarchy. -/
inductive DispatchResult where
  | executed : String → DispatchResult
  | inheritedCall : String → DispatchResult
  | typeError : String → DispatchResult
  | rebroadcast : CommandEnvelope → DispatchResult
deriving DecidableEq

/-- Source line 71: `commandHandlers[data.command](data)`, including the
prototype chain of the object literal. -/
def executeLocal (cmd : String) : DispatchResult :=
  if cmd ∈ commandNames then .executed cmd
  else if cmd ∈ objectProtoSilentMethods then .inheritedCall cmd
  else .typeError cmd

/-- Source lines 64-73: `if (data.context.scriptFrameId &&
(modules.mouseEvents.scriptFrameId !== data.context.scriptFrameId))`
rebroadcast, else execute locally.  JavaScript truthiness: an absent id
and the number `0` are both falsy. -/
def onDelegateCommand (ownId : Nat) (env : CommandEnvelope) : DispatchResult :=
  match env.scriptFrameId with
  | some fid =>
    if fid ≠ 0 ∧ ownId ≠ fid then .rebroadcast env else executeLocal env.command
  | none => executeLocal env.command

/-- Whether this frame attempted local handling (anything but a
rebroadcast). -/
def handledLocally : DispatchResult → Bool
  | .rebroadcast _ => false
  | _ => true

/-! ### Scroll animation (source lines 176-210)

Modelled over `ℚ`: the float arithmetic of the source is idealised as
exact arithmetic, and the `requestAnimationFrame` sampling as an
arbitrary elapsed time `t = step - start` supplied to each invocation of
`animate`. -/

/-- Source lines 176-178, the adapted jquery easing function:
`-change * (time /= duration) * (time - 2) + initial`. -/
def easeOutQuad (time initial change duration : ℚ) : ℚ :=
  -change * (time / duration) * (time / duration - 2) + initial

/-- The state captured by the closure of `scrollYEase`. -/
structure AnimState where
  scrollTo : ℚ
  initial : ℚ
  duration : ℚ
deriving DecidableEq

/-- Source lines 187-199: one invocation of `animate` at elapsed time
`t`, returning the offset written by `window.scrollTo(0, ...)` and
whether the promise was resolved (`true` on the final sample). -/
def animateSample (st : AnimState) (t : ℚ) : ℚ × Bool :=
  if t < st.duration then
    (easeOutQuad t st.initial (st.scrollTo - st.initial) st.duration, false)
  else (st.scrollTo, true)

/-- Result of calling `scrollYEase` itself (source lines 201-208). -/
inductive ScrollStart where
  | scheduled : AnimState → ScrollStart
  | immediate : ℚ → ScrollStart
deriving DecidableEq

/-- Source lines 181-209: with a positive duration the first animation
frame is scheduled; otherwise the window is scrolled to the target and
the promise resolved synchronously. -/
def scrollYEase (scrollTo duration initial : ℚ) : ScrollStart :=
  if 0 < duration then .scheduled ⟨scrollTo, initial, duration⟩
  else .immediate scrollTo

/-! ### Helper definitions for the verification -/

/-- Value of a little-endian digit list (used to relate `natToDigits`
and `digitsToNat`). -/
def valRev : List Char → Nat
  | [] => 0
  | c :: cs => digitVal c + 10 * valRev cs

/-- Word-character state of the scan after reading `pre` starting from
state `pw`: `isWordChar` of the last character of `pre`, or `pw` when
`pre` is empty.  `wordState false pre = false` says a match starting
right after `pre` satisfies the leading `\b` of the patterns. -/
def wordState (pw : Bool) (pre : List Char) : Bool :=
  pre.foldl (fun _ c => isWordChar c) pw

/-- A key matchable by the strategy-1 alternation `(page|p)` (case
insensitive). -/
def isKey1 : List Char → Bool
  | [p] => isPChar p
  | [p, a, g, e] => isPageWord p a g e
  | _ => false

/-- A key matchable by the strategy-2 group `(page\/?)` (case
insensitive, optional trailing slash). -/
def isKey2 : List Char → Bool
  | [p, a, g, e] => isPageWord p a g e
  | [p, a, g, e, s] => isPageWord p a g e && s == '/'
  | _ => false

/-- `url` contains an occurrence of the strategy-1 pattern
`\b(page|p)=(\d+)\b` at position `pre.length`: key `k`, digit run `ds`,
with both word boundaries satisfied and the digit run maximal
(`tailBoundary post` rules out a following word character, in particular
a digit). -/
abbrev QueryParamOcc (url pre k ds post : List Char) : Prop :=
  url = pre ++ k ++ '=' :: (ds ++ post) ∧ isKey1 k = true ∧ ds ≠ [] ∧
  ds.all Char.isDigit = true ∧ wordState false pre = false ∧
  tailBoundary post = true

/-- `url` contains an occurrence of the strategy-2 pattern
`\b(page\/?)(\d+)\b` at position `pre.length`. -/
abbrev PageSegOcc (url pre k ds post : List Char) : Prop :=
  url = pre ++ k ++ (ds ++ post) ∧ isKey2 k = true ∧ ds ≠ [] ∧
  ds.all Char.isDigit = true ∧ wordState false pre = false ∧
  tailBoundary post = true

/-! ## Decimal-digit lemmas -/

theorem digitVal_ofNat_mod (n : Nat) : digitVal (Char.ofNat (48 + n % 10)) = n % 10 := by
  have h : n % 10 < 10 := Nat.mod_lt _ (by norm_num)
  revert h
  generalize n % 10 = k
  intro h
  interval_cases k <;> decide

theorem valRev_natToDigitsRev :
    ∀ fuel n, n < 10 ^ fuel → valRev (natToDigitsRev fuel n) = n
  | 0, n, h => by
    simp only [natToDigitsRev, valRev]
    omega
  | fuel + 1, n, h => by
    by_cases h10 : n < 10
    · simp only [natToDigitsRev, if_pos h10, valRev, digitVal_ofNat_mod]
      omega
    · have hdiv : n / 10 < 10 ^ fuel := by
        rw [Nat.div_lt_iff_lt_mul (by norm_num : (0:Nat) < 10)]
        calc n < 10 ^ (fuel + 1) := h
        _ = 10 ^ fuel * 10 := by ring
      simp only [natToDigitsRev, if_neg h10, valRev, digitVal_ofNat_mod,
        valRev_natToDigitsRev fuel (n / 10) hdiv]
      omega

theorem digitsToNat_reverse (l : List Char) : digitsToNat l.reverse = valRev l := by
  induction l with
  | nil => rfl
  | cons c cs ih =>
    simp only [List.reverse_cons, digitsToNat, List.foldl_append, List.foldl_cons,
      List.foldl_nil] at *
    simp only [valRev, ih.symm, digitsToNat]
    omega

theorem digitsToNat_natToDigits (n : Nat) : digitsToNat (natToDigits n) = n := by
  have h1 : n < 10 ^ n := Nat.lt_pow_self (by norm_num) n
  have h2 : (10:Nat) ^ n ≤ 10 ^ (n + 1) := Nat.pow_le_pow_right (by norm_num) (by omega)
  unfold natToDigits
  rw [digitsToNat_reverse]
  exact valRev_natToDigitsRev (n + 1) n (by omega)

theorem natToDigits_ne_nil (n : Nat) : natToDigits n ≠ [] := by
  simp [natToDigits, natToDigitsRev]

theorem digitsToNat_replicate_zero (k : Nat) (xs : List Char) :
    digitsToNat (List.replicate k '0' ++ xs) = digitsToNat xs := by
  induction k with
  | zero => rfl
  | succ k ih =>
    have h0 : digitVal '0' = 0 := by decide
    simpa [List.replicate_succ, digitsToNat, h0] using ih

theorem digitsToNat_padSame (ds : List Char) (m : Nat) :
    digitsToNat (padSame ds (natToDigits m)) = m := by
  unfold padSame padStart
  split
  · rw [digitsToNat_replicate_zero, digitsToNat_natToDigits]
  · exact digitsToNat_natToDigits m

theorem padSame_natToDigits_ne (ds : List Char) (m : Nat)
    (h : digitsToNat ds ≠ m) : padSame ds (natToDigits m) ≠ ds := by
  intro he
  exact h (by rw [← he, digitsToNat_padSame])

theorem jsNumToChars_inc_nat (n : Nat) :
    jsNumToChars (incTransform (.num (n : Int))) = natToDigits (n + 1) := by
  have h1 : ¬ ((n : Int) + 1 < 0) := by omega
  have h2 : ((n : Int) + 1).toNat = n + 1 := by omega
  simp only [incTransform, jsNumToChars, intToChars, if_neg h1, h2]

/-! ## Claim C5: the padding-aware formatter -/

/-- Claim C5: `padSame(original, newValue)` returns, when `original`
begins with the character `0`, the decimal string of `newValue`
left-padded with `0` to at least `original.length` characters — with no
special case for `original` being the single character `"0"`, for which
the padding branch is still taken but pads to the plain decimal string —
and otherwise returns the plain decimal string of `newValue`.  The
function is total (always returns a string, no error conditions). -/
theorem padSame_formats (original : List Char) (n : Nat) :
    (original.head? = some '0' →
      padSame original (natToDigits n) =
        List.replicate (original.length - (natToDigits n).length) '0' ++
          natToDigits n ∧
      (padSame original (natToDigits n)).length =
        max original.length (natToDigits n).length) ∧
    (original.head? ≠ some '0' →
      padSame original (natToDigits n) = natToDigits n) ∧
    (original = ['0'] → padSame original (natToDigits n) = natToDigits n) := by
  have hlen : 1 ≤ (natToDigits n).length := by
    cases hnd : natToDigits n with
    | nil => exact absurd hnd (natToDigits_ne_nil n)
    | cons a l => simp
  refine ⟨fun h => ?_, fun h => ?_, fun h => ?_⟩
  · unfold padSame padStart
    rw [if_pos h]
    refine ⟨rfl, ?_⟩
    simp only [List.length_append, List.length_replicate]
    omega
  · unfold padSame
    rw [if_neg h]
  · subst h
    have h0 : (['0'] : List Char).head? = some '0' := rfl
    unfold padSame padStart
    rw [if_pos h0]
    simp only [List.length_singleton, Nat.sub_eq_zero_of_le hlen,
      List.replicate_zero, List.nil_append]

/-- Witness for `padSame_formats`: original `"007"`, new value `8`. -/
theorem padSame_formats_witness :
    ("007".data.head? = some '0') ∧
    padSame ("007".data) (natToDigits 8) =
      List.replicate (("007".data).length - (natToDigits 8).length) '0' ++
        natToDigits 8 :=
  ⟨by decide, ((padSame_formats ("007".data) 8).1 (by decide)).1⟩

/-! ## Claim C8: the pageDown transform clamps at zero -/

/-- Claim C8: the `pageDown` page transform is `p => max(0, p - 1)` on
non-negative integers: it yields `p - 1` when `p > 0`, `0` when `p = 0`,
and never produces a negative number. -/
theorem decClampTransform_clamps (p : Int) (hp : 0 ≤ p) :
    decClampTransform (.num p) = .num (max 0 (p - 1)) ∧
    (0 < p → decClampTransform (.num p) = .num (p - 1)) ∧
    (p = 0 → decClampTransform (.num p) = .num 0) ∧
    ∀ q, decClampTransform (.num p) = .num q → 0 ≤ q := by
  have hmax : max 0 (p - 1) = if 0 < p then p - 1 else 0 := by
    rcases max_cases 0 (p - 1) with ⟨h1, h2⟩ | ⟨h1, h2⟩ <;> split_ifs with h3 <;> omega
  refine ⟨?_, fun h => ?_, fun h => ?_, fun q hq => ?_⟩
  · rw [hmax]
    simp only [decClampTransform]
    split_ifs <;> rfl
  · simp [decClampTransform, h]
  · simp [decClampTransform, h]
  · simp only [decClampTransform] at hq
    split_ifs at hq <;> simp only [JsNum.num.injEq] at hq <;> omega

/-- Witness for `decClampTransform_clamps` at `p = 0`. -/
theorem decClampTransform_clamps_witness :
    (0 : Int) ≤ 0 ∧ decClampTransform (.num 0) = .num (max 0 (0 - 1)) :=
  ⟨by decide, (decClampTransform_clamps 0 (by decide)).1⟩

/-! ## Claim C9: the scroll animator -/

theorem easeOutQuad_at_duration (initial change duration : ℚ)
    (h : duration ≠ 0) :
    easeOutQuad duration initial change duration = change + initial := by
  unfold easeOutQuad
  rw [div_self h]
  ring

/-- Claim C9: with `duration ≤ 0` the scroll is set to the target and
completion is signalled synchronously; with a positive duration, a
sample at elapsed time `t ≥ 0` writes exactly the quadratic ease-out
value at `t` clamped to `[0, duration]` and signals completion exactly
when `t ≥ duration`; the final sample writes the exact target.  (The
source's float arithmetic is idealised as `ℚ`, and samples occur at
non-negative elapsed times.) -/
theorem scrollAnimator_spec (target duration initial t : ℚ) :
    (duration ≤ 0 → scrollYEase target duration initial = .immediate target) ∧
    (0 < duration → 0 ≤ t →
      animateSample ⟨target, initial, duration⟩ t =
        (easeOutQuad (min t duration) initial (target - initial) duration,
         decide (duration ≤ t))) ∧
    (duration ≤ t → animateSample ⟨target, initial, duration⟩ t = (target, true)) := by
  refine ⟨fun h => ?_, fun hd ht => ?_, fun h => ?_⟩
  · unfold scrollYEase
    rw [if_neg (by exact not_lt.mpr h)]
  · unfold animateSample
    by_cases hlt : t < duration
    · rw [if_pos hlt, min_eq_left (le_of_lt hlt)]
      simp [decide_eq_false (not_le.mpr hlt)]
    · have hdt : duration ≤ t := not_lt.mp hlt
      rw [if_neg hlt, min_eq_right hdt,
        easeOutQuad_at_duration _ _ _ (ne_of_gt hd)]
      simp [decide_eq_true hdt, sub_add_cancel]
  · unfold animateSample
    rw [if_neg (not_lt.mpr h)]

/-- Witness for `scrollAnimator_spec`: target `100`, duration `10`,
initial `0`, sample at `t = 4`. -/
theorem scrollAnimator_spec_witness :
    (0 : ℚ) < 10 ∧ (0 : ℚ) ≤ 4 ∧
    animateSample ⟨100, 0, 10⟩ 4 =
      (easeOutQuad (min 4 10) 0 (100 - 0) 10, decide ((10 : ℚ) ≤ 4)) :=
  ⟨by norm_num, by norm_num,
    (scrollAnimator_spec 100 10 0 4).2.1 (by norm_num) (by norm_num)⟩

/-! ## Claims C4 and C7: the dispatcher -/

theorem handledLocally_executeLocal (cmd : String) :
    handledLocally (executeLocal cmd) = true := by
  unfold executeLocal
  split_ifs <;> rfl

theorem executeLocal_ne_rebroadcast (cmd : String) (e : CommandEnvelope) :
    executeLocal cmd ≠ .rebroadcast e := by
  unfold executeLocal
  split_ifs <;> intro h <;> cases h

/-- Claim C4: a frame handles an inbound envelope locally iff the
envelope's `scriptFrameId` is absent or equals the frame's own id;
otherwise it rebroadcasts the envelope downward; the two outcomes are
mutually exclusive.  The hypothesis records that any present id is a
JavaScript-truthy number (nonzero), which holds of every real
`ContextId` the registry assigns. -/
theorem onDelegateCommand_routing (ownId : Nat) (env : CommandEnvelope)
    (hid : ∀ fid, env.scriptFrameId = some fid → fid ≠ 0) :
    (handledLocally (onDelegateCommand ownId env) = true ↔
      env.scriptFrameId = none ∨ env.scriptFrameId = some ownId) ∧
    (onDelegateCommand ownId env = .rebroadcast env ↔
      ¬(env.scriptFrameId = none ∨ env.scriptFrameId = some ownId)) ∧
    ¬(handledLocally (onDelegateCommand ownId env) = true ∧
      onDelegateCommand ownId env = .rebroadcast env) := by
  cases henv : env.scriptFrameId with
  | none =>
    simp [onDelegateCommand, henv, handledLocally_executeLocal,
      executeLocal_ne_rebroadcast]
  | some fid =>
    have hfid : fid ≠ 0 := hid fid henv
    by_cases hw : ownId = fid
    · subst hw
      simp [onDelegateCommand, henv, handledLocally_executeLocal,
        executeLocal_ne_rebroadcast]
    · have hw2 : ¬fid = ownId := fun h => hw h.symm
      have hcond : fid ≠ 0 ∧ ownId ≠ fid := ⟨hfid, hw⟩
      simp only [onDelegateCommand, henv, if_pos hcond]
      refine ⟨?_, ?_, ?_⟩
      · simp [handledLocally, henv, hw2]
      · simp [henv, hw2]
      · simp [handledLocally]

/-- Witness for `onDelegateCommand_routing`: own id `1`, envelope
targeted at id `2` — the dispatcher rebroadcasts. -/
theorem onDelegateCommand_routing_witness :
    (2 : Nat) ≠ 0 ∧
    (onDelegateCommand 1 ⟨"scrollTop", some 2⟩ =
        .rebroadcast ⟨"scrollTop", some 2⟩ ↔
      ¬((some 2 : Option Nat) = none ∨ (some 2 : Option Nat) = some 1)) :=
  ⟨by decide,
    (onDelegateCommand_routing 1 ⟨"scrollTop", some 2⟩
      (fun fid h => by cases h; decide)).2.1⟩

/-- Claim C7 counterexample: the command name `toString` is not in the
fixed handler set, yet dispatching it raises no error — the lookup
`commandHandlers['toString']` resolves to the inherited
`Object.prototype.toString`, which is invoked and silently does
nothing. -/
theorem unknownCommand_toString_silent :
    "toString" ∉ commandNames ∧
    onDelegateCommand 1 ⟨"toString", none⟩ = .inheritedCall "toString" := by
  constructor
  · decide
  · rfl

/-- Claim C7 (amended): dispatching an envelope routed to this frame
whose command name is neither a handler-table key nor the name of a
silently invocable inherited `Object.prototype` method throws a
`TypeError` (`undefined` is called) — a loud failure, never a silent
no-op. -/
theorem unknownCommand_typeError (ownId : Nat) (env : CommandEnvelope)
    (hcmd : env.command ∉ commandNames)
    (hproto : env.command ∉ objectProtoSilentMethods)
    (hroute : env.scriptFrameId = none ∨ env.scriptFrameId = some ownId ∨
      env.scriptFrameId = some 0) :
    onDelegateCommand ownId env = .typeError env.command := by
  have hexec : executeLocal env.command = .typeError env.command := by
    unfold executeLocal
    rw [if_neg hcmd, if_neg hproto]
  rcases hroute with h | h | h <;> simp [onDelegateCommand, h, hexec]

/-- Witness for `unknownCommand_typeError`: the unknown command
`bogusCmd` delivered without a target id. -/
theorem unknownCommand_typeError_witness :
    "bogusCmd" ∉ commandNames ∧
    onDelegateCommand 1 ⟨"bogusCmd", none⟩ = .typeError "bogusCmd" :=
  ⟨by decide,
    unknownCommand_typeError 1 ⟨"bogusCmd", none⟩ (by decide) (by decide)
      (Or.inl rfl)⟩

/-! ## splitDigits and boundary lemmas -/

theorem splitDigits_append (s : List Char) :
    (splitDigits s).1 ++ (splitDigits s).2 = s := by
  induction s with
  | nil => rfl
  | cons c cs ih =>
    by_cases h : c.isDigit
    · simp [splitDigits, h, ih]
    · simp [splitDigits, h]

theorem splitDigits_fst_digits (s : List Char) :
    ((splitDigits s).1).all Char.isDigit = true := by
  induction s with
  | nil => rfl
  | cons c cs ih =>
    by_cases h : c.isDigit
    · simp [splitDigits, h, ih]
    · simp [splitDigits, h]

theorem splitDigits_eq_of (ds r : List Char) (hds : ds.all Char.isDigit = true)
    (hr : noDigitHead r = true) : splitDigits (ds ++ r) = (ds, r) := by
  induction ds with
  | nil =>
    cases r with
    | nil => rfl
    | cons c t =>
      have hc : c.isDigit = false := by
        simpa [noDigitHead] using hr
      simp [splitDigits, hc]
  | cons d ds ih =>
    rw [List.all_cons, Bool.and_eq_true] at hds
    obtain ⟨hd, hds'⟩ := hds
    simp [splitDigits, hd, ih hds']

theorem noDigitHead_of_tailBoundary (r : List Char)
    (h : tailBoundary r = true) : noDigitHead r = true := by
  cases r with
  | nil => rfl
  | cons c t =>
    simp only [tailBoundary, Bool.not_eq_true', isWordChar,
      Bool.or_eq_false_iff] at h
    simp only [noDigitHead, Bool.not_eq_true']
    exact h.1.2

theorem wordState_nil (pw : Bool) : wordState pw [] = pw := rfl

theorem wordState_cons (pw : Bool) (c : Char) (pre : List Char) :
    wordState pw (c :: pre) = wordState (isWordChar c) pre := rfl

/-! ## Generic lemmas about the replace scan -/

theorem scanWith_id (tryAt : List Char → Option (List Char × List Char)) :
    ∀ (s : List Char) (pw : Bool),
      (∀ pre suf, s = pre ++ suf → tryAt suf = none) →
      scanWith tryAt pw s = s
  | [], _, _ => rfl
  | c :: cs, pw, h => by
    have h0 : tryAt (c :: cs) = none := h [] (c :: cs) rfl
    have ih := scanWith_id tryAt cs (isWordChar c)
      (fun pre suf hs => h (c :: pre) suf (by rw [hs]; rfl))
    cases pw with
    | true => simp [scanWith, ih]
    | false => simp [scanWith, h0, ih]

/-- If some position of `s` admits a match (with its leading boundary),
then the scan rewrites the leftmost such position and copies the rest of
the string unchanged. -/
theorem scanWith_found (tryAt : List Char → Option (List Char × List Char))
    (h0 : tryAt [] = none) (s : List Char) (pw : Bool)
    (hex : ∃ pre suf, s = pre ++ suf ∧ wordState pw pre = false ∧
      (tryAt suf).isSome = true) :
    ∃ pre suf rep rest, s = pre ++ suf ∧ wordState pw pre = false ∧
      tryAt suf = some (rep, rest) ∧
      scanWith tryAt pw s = pre ++ rep ++ rest ∧
      ∀ pre2 suf2, s = pre2 ++ suf2 → wordState pw pre2 = false →
        (tryAt suf2).isSome = true → pre.length ≤ pre2.length := by
  revert hex
  induction s generalizing pw with
  | nil =>
    rintro ⟨pre, suf, hs, hb, hsome⟩
    obtain ⟨rfl, rfl⟩ := List.append_eq_nil.mp hs.symm
    rw [h0] at hsome
    simp at hsome
  | cons c cs ih =>
    intro hex
    cases pw with
    | false =>
      cases htry : tryAt (c :: cs) with
      | some pr =>
        obtain ⟨rep, rest⟩ := pr
        exact ⟨[], c :: cs, rep, rest, rfl, rfl, htry, by simp [scanWith, htry],
          fun pre2 suf2 _ _ _ => Nat.zero_le _⟩
      | none =>
        obtain ⟨pre, suf, hs, hb, hsome⟩ := hex
        cases pre with
        | nil =>
          rw [List.nil_append] at hs
          rw [← hs, htry] at hsome
          simp at hsome
        | cons c' pre' =>
          rw [List.cons_append] at hs
          injection hs with hc hcs
          subst hc
          rw [wordState_cons] at hb
          obtain ⟨pre1, suf1, rep, rest, hs1, hb1, htry1, hscan1, hmin1⟩ :=
            ih (isWordChar c) ⟨pre', suf, hcs, hb, hsome⟩
          refine ⟨c :: pre1, suf1, rep, rest, ?_, ?_, htry1, ?_, ?_⟩
          · rw [List.cons_append, hs1]
          · rwa [wordState_cons]
          · simp [scanWith, htry, hscan1]
          · intro pre2 suf2 h2 hb2 hsome2
            cases pre2 with
            | nil =>
              rw [List.nil_append] at h2
              rw [← h2, htry] at hsome2
              simp at hsome2
            | cons c2 pre2' =>
              rw [List.cons_append] at h2
              injection h2 with hc2 hcs2
              subst hc2
              rw [wordState_cons] at hb2
              simpa using Nat.succ_le_succ (hmin1 pre2' suf2 hcs2 hb2 hsome2)
    | true =>
      obtain ⟨pre, suf, hs, hb, hsome⟩ := hex
      cases pre with
      | nil =>
        rw [wordState_nil] at hb
        simp at hb
      | cons c' pre' =>
        rw [List.cons_append] at hs
        injection hs with hc hcs
        subst hc
        rw [wordState_cons] at hb
        obtain ⟨pre1, suf1, rep, rest, hs1, hb1, htry1, hscan1, hmin1⟩ :=
          ih (isWordChar c) ⟨pre', suf, hcs, hb, hsome⟩
        refine ⟨c :: pre1, suf1, rep, rest, ?_, ?_, htry1, ?_, ?_⟩
        · rw [List.cons_append, hs1]
        · rwa [wordState_cons]
        · simp [scanWith, hscan1]
        · intro pre2 suf2 h2 hb2 hsome2
          cases pre2 with
          | nil =>
            rw [wordState_nil] at hb2
            simp at hb2
          | cons c2 pre2' =>
            rw [List.cons_append] at h2
            injection h2 with hc2 hcs2
            subst hc2
            rw [wordState_cons] at hb2
            simpa using Nat.succ_le_succ (hmin1 pre2' suf2 hcs2 hb2 hsome2)

/-! ## Pattern-level lemmas for the two regex strategies -/

theorem matchDigitsTail_sound (f : JsNum → JsNum) (key s rep rest : List Char)
    (h : matchDigitsTail f key s = some (rep, rest)) :
    ∃ ds, s = ds ++ rest ∧ ds ≠ [] ∧ ds.all Char.isDigit = true ∧
      tailBoundary rest = true ∧
      rep = key ++ padSame ds (jsNumToChars (f (.num (digitsToNat ds : Int)))) := by
  unfold matchDigitsTail at h
  split_ifs at h with hc
  · simp only [Option.some.injEq, Prod.mk.injEq] at h
    obtain ⟨hrep, hrest⟩ := h
    refine ⟨(splitDigits s).1, ?_, hc.1, splitDigits_fst_digits s, ?_, hrep.symm⟩
    · rw [← hrest, splitDigits_append]
    · rw [← hrest]
      exact hc.2

theorem matchDigitsTail_complete (f : JsNum → JsNum) (key ds rest : List Char)
    (hds : ds ≠ []) (hdig : ds.all Char.isDigit = true)
    (hb : tailBoundary rest = true) :
    matchDigitsTail f key (ds ++ rest) =
      some (key ++ padSame ds (jsNumToChars (f (.num (digitsToNat ds : Int)))),
        rest) := by
  unfold matchDigitsTail
  rw [splitDigits_eq_of ds rest hdig (noDigitHead_of_tailBoundary rest hb)]
  rw [if_pos ⟨hds, hb⟩]

theorem matchEqDigits_sound (f : JsNum → JsNum) (key s rep rest : List Char)
    (h : matchEqDigits f key s = some (rep, rest)) :
    ∃ ds, s = '=' :: (ds ++ rest) ∧ ds ≠ [] ∧ ds.all Char.isDigit = true ∧
      tailBoundary rest = true ∧
      rep = (key ++ ['=']) ++
        padSame ds (jsNumToChars (f (.num (digitsToNat ds : Int)))) := by
  cases s with
  | nil => simp [matchEqDigits] at h
  | cons c rest1 =>
    simp only [matchEqDigits] at h
    split_ifs at h with hc
    · subst hc
      obtain ⟨ds, h1, h2, h3, h4, h5⟩ :=
        matchDigitsTail_sound f (key ++ ['=']) rest1 rep rest h
      exact ⟨ds, by rw [h1], h2, h3, h4, h5⟩

theorem matchEqDigits_complete (f : JsNum → JsNum) (key ds rest : List Char)
    (hds : ds ≠ []) (hdig : ds.all Char.isDigit = true)
    (hb : tailBoundary rest = true) :
    matchEqDigits f key ('=' :: (ds ++ rest)) =
      some ((key ++ ['=']) ++
        padSame ds (jsNumToChars (f (.num (digitsToNat ds : Int)))), rest) := by
  simp only [matchEqDigits, if_pos rfl]
  exact matchDigitsTail_complete f (key ++ ['=']) ds rest hds hdig hb

theorem tryMatch1At_nil (f : JsNum → JsNum) : tryMatch1At f [] = none := rfl

theorem tryMatch2At_nil (f : JsNum → JsNum) : tryMatch2At f [] = none := rfl

theorem tryMatch1Page_sound (f : JsNum → JsNum) (s rep rest : List Char)
    (h : tryMatch1Page f s = some (rep, rest)) :
    ∃ p a g e rest1, s = p :: a :: g :: e :: rest1 ∧ isPageWord p a g e = true ∧
      matchEqDigits f [p, a, g, e] rest1 = some (rep, rest) := by
  rcases s with _ | ⟨p, _ | ⟨a, _ | ⟨g, _ | ⟨e, rest1⟩⟩⟩⟩
  · exact Option.noConfusion h
  · exact Option.noConfusion h
  · exact Option.noConfusion h
  · exact Option.noConfusion h
  · simp only [tryMatch1Page] at h
    split_ifs at h with hw
    exact ⟨p, a, g, e, rest1, rfl, hw, h⟩

theorem tryMatch1P_sound (f : JsNum → JsNum) (s rep rest : List Char)
    (h : tryMatch1P f s = some (rep, rest)) :
    ∃ p rest1, s = p :: rest1 ∧ isPChar p = true ∧
      matchEqDigits f [p] rest1 = some (rep, rest) := by
  rcases s with _ | ⟨p, rest1⟩
  · exact Option.noConfusion h
  · simp only [tryMatch1P] at h
    split_ifs at h with hp
    exact ⟨p, rest1, rfl, hp, h⟩

theorem tryMatch1At_sound (f : JsNum → JsNum) (s rep rest : List Char)
    (h : tryMatch1At f s = some (rep, rest)) :
    ∃ k ds, isKey1 k = true ∧ ds ≠ [] ∧ ds.all Char.isDigit = true ∧
      tailBoundary rest = true ∧ s = k ++ '=' :: (ds ++ rest) ∧
      rep = (k ++ ['=']) ++
        padSame ds (jsNumToChars (f (.num (digitsToNat ds : Int)))) := by
  unfold tryMatch1At at h
  cases hpage : tryMatch1Page f s with
  | some r =>
    rw [hpage] at h
    injection h with hr
    subst hr
    obtain ⟨p, a, g, e, rest1, hs, hw, hm⟩ :=
      tryMatch1Page_sound f s rep rest hpage
    obtain ⟨ds, h1, h2, h3, h4, h5⟩ :=
      matchEqDigits_sound f [p, a, g, e] rest1 rep rest hm
    subst hs
    refine ⟨[p, a, g, e], ds, ?_, h2, h3, h4, by rw [h1]; rfl, h5⟩
    simpa [isKey1] using hw
  | none =>
    rw [hpage] at h
    obtain ⟨p, rest1, hs, hp, hm⟩ := tryMatch1P_sound f s rep rest h
    obtain ⟨ds, h1, h2, h3, h4, h5⟩ :=
      matchEqDigits_sound f [p] rest1 rep rest hm
    subst hs
    refine ⟨[p], ds, ?_, h2, h3, h4, by rw [h1]; rfl, h5⟩
    simpa [isKey1] using hp

theorem tryMatch1At_complete (f : JsNum → JsNum) (k ds rest : List Char)
    (hk : isKey1 k = true) (hds : ds ≠ []) (hdig : ds.all Char.isDigit = true)
    (hb : tailBoundary rest = true) :
    (tryMatch1At f (k ++ '=' :: (ds ++ rest))).isSome = true := by
  rcases k with _ | ⟨p, _ | ⟨a, _ | ⟨g, _ | ⟨e, _ | ⟨x, t⟩⟩⟩⟩⟩ <;>
    simp only [isKey1] at hk <;> try exact absurd hk Bool.false_ne_true
  · -- k = [p]
    rcases ds with _ | ⟨d, ds'⟩
    · exact absurd rfl hds
    · have hpage : tryMatch1Page f ([p] ++ '=' :: ((d :: ds') ++ rest)) = none := by
        cases hdr : ds' ++ rest with
        | nil => simp [tryMatch1Page, hdr]
        | cons y t2 =>
          have hA : isAChar '=' = false := by decide
          simp [tryMatch1Page, hdr, isPageWord, hA]
      have h1 : tryMatch1At f ([p] ++ '=' :: ((d :: ds') ++ rest)) =
          tryMatch1P f ([p] ++ '=' :: ((d :: ds') ++ rest)) := by
        unfold tryMatch1At
        rw [hpage]
      have h2 : tryMatch1P f ([p] ++ '=' :: ((d :: ds') ++ rest)) =
          matchEqDigits f [p] ('=' :: ((d :: ds') ++ rest)) := by
        simp only [List.singleton_append, tryMatch1P, if_pos hk]
      rw [h1, h2, matchEqDigits_complete f [p] (d :: ds') rest hds hdig hb]
      rfl
  · -- k = [p, a, g, e]
    have h1 : tryMatch1Page f ([p, a, g, e] ++ '=' :: (ds ++ rest)) =
        some (([p, a, g, e] ++ ['=']) ++
          padSame ds (jsNumToChars (f (.num (digitsToNat ds : Int)))), rest) := by
      have := matchEqDigits_complete f [p, a, g, e] ds rest hds hdig hb
      simp only [List.cons_append, List.nil_append, tryMatch1Page, if_pos hk]
      exact this
    unfold tryMatch1At
    rw [h1]
    rfl

theorem tryMatch2At_sound (f : JsNum → JsNum) (s rep rest : List Char)
    (h : tryMatch2At f s = some (rep, rest)) :
    ∃ k ds, isKey2 k = true ∧ ds ≠ [] ∧ ds.all Char.isDigit = true ∧
      tailBoundary rest = true ∧ s = k ++ (ds ++ rest) ∧
      rep = k ++ padSame ds (jsNumToChars (f (.num (digitsToNat ds : Int)))) := by
  rcases s with _ | ⟨p, _ | ⟨a, _ | ⟨g, _ | ⟨e, rest1⟩⟩⟩⟩
  · exact Option.noConfusion h
  · exact Option.noConfusion h
  · exact Option.noConfusion h
  · exact Option.noConfusion h
  · simp only [tryMatch2At] at h
    split_ifs at h with hw
    cases rest1 with
    | nil =>
      obtain ⟨ds, h1, h2, h3, h4, h5⟩ :=
        matchDigitsTail_sound f [p, a, g, e] [] rep rest h
      exact absurd (List.append_eq_nil.mp h1.symm).1 h2
    | cons c rest2 =>
      by_cases hc : c = '/'
      · subst hc
        obtain ⟨ds, h1, h2, h3, h4, h5⟩ :=
          matchDigitsTail_sound f [p, a, g, e, '/'] rest2 rep rest h
        refine ⟨[p, a, g, e, '/'], ds, ?_, h2, h3, h4, by rw [h1]; rfl, h5⟩
        simp [isKey2, hw]
      · have h' : (if c = '/' then matchDigitsTail f [p, a, g, e, '/'] rest2
            else matchDigitsTail f [p, a, g, e] (c :: rest2)) =
            some (rep, rest) := h
        rw [if_neg hc] at h'
        obtain ⟨ds, h1, h2, h3, h4, h5⟩ :=
          matchDigitsTail_sound f [p, a, g, e] (c :: rest2) rep rest h'
        refine ⟨[p, a, g, e], ds, ?_, h2, h3, h4, by rw [h1]; rfl, h5⟩
        simpa [isKey2] using hw

theorem tryMatch2At_complete (f : JsNum → JsNum) (k ds rest : List Char)
    (hk : isKey2 k = true) (hds : ds ≠ []) (hdig : ds.all Char.isDigit = true)
    (hb : tailBoundary rest = true) :
    (tryMatch2At f (k ++ (ds ++ rest))).isSome = true := by
  rcases k with _ | ⟨p, _ | ⟨a, _ | ⟨g, _ | ⟨e, _ | ⟨x, _ | ⟨y, t⟩⟩⟩⟩⟩⟩ <;>
    simp [isKey2] at hk
  · -- k = [p, a, g, e]
    rcases ds with _ | ⟨d, ds'⟩
    · exact absurd rfl hds
    · have hd : d.isDigit = true := by
        rw [List.all_cons, Bool.and_eq_true] at hdig
        exact hdig.1
      have hslash : ¬ d = '/' := by
        intro hck
        rw [hck] at hd
        exact absurd hd (by decide)
      have h1 : tryMatch2At f ([p, a, g, e] ++ ((d :: ds') ++ rest)) =
          matchDigitsTail f [p, a, g, e] ((d :: ds') ++ rest) := by
        simp only [List.cons_append, List.nil_append, tryMatch2At, if_pos hk,
          if_neg hslash]
      rw [h1, matchDigitsTail_complete f [p, a, g, e] (d :: ds') rest hds hdig hb]
      rfl
  · -- k = [p, a, g, e, x] with x = '/'
    obtain ⟨hw, hx⟩ := hk
    subst hx
    have h1 : tryMatch2At f ([p, a, g, e, '/'] ++ (ds ++ rest)) =
        matchDigitsTail f [p, a, g, e, '/'] (ds ++ rest) := by
      simp only [List.cons_append, List.nil_append, tryMatch2At, if_pos hw,
        if_pos rfl, if_true]
    rw [h1, matchDigitsTail_complete f [p, a, g, e, '/'] ds rest hds hdig hb]
    rfl

/-! ## The two regex replacers rewrite the leftmost occurrence -/

theorem replacer1_found (f : JsNum → JsNum) (url : List Char)
    (hex : ∃ pre k ds post, QueryParamOcc url pre k ds post) :
    ∃ pre k ds post, QueryParamOcc url pre k ds post ∧
      (∀ pre2 k2 ds2 post2, QueryParamOcc url pre2 k2 ds2 post2 →
        pre.length ≤ pre2.length) ∧
      replacer1 f url = pre ++ k ++ '=' ::
        (padSame ds (jsNumToChars (f (.num (digitsToNat ds : Int)))) ++ post) := by
  obtain ⟨pre0, k0, ds0, post0, hurl0, hk0, hds0, hdig0, hpre0, hpost0⟩ := hex
  have hexs : ∃ pre1 suf1, url = pre1 ++ suf1 ∧ wordState false pre1 = false ∧
      (tryMatch1At f suf1).isSome = true :=
    ⟨pre0, k0 ++ '=' :: (ds0 ++ post0), by rw [hurl0, List.append_assoc], hpre0,
      tryMatch1At_complete f k0 ds0 post0 hk0 hds0 hdig0 hpost0⟩
  obtain ⟨pre1, suf1, rep, rest, hs1, hb1, htry1, hscan1, hmin1⟩ :=
    scanWith_found (tryMatch1At f) (tryMatch1At_nil f) url false hexs
  obtain ⟨k2, ds2, hk2, hds2, hdig2, hb2, hsuf1, hrep⟩ :=
    tryMatch1At_sound f suf1 rep rest htry1
  have hurl2 : url = pre1 ++ k2 ++ '=' :: (ds2 ++ rest) := by
    rw [hs1, hsuf1, ← List.append_assoc]
  refine ⟨pre1, k2, ds2, rest, ⟨hurl2, hk2, hds2, hdig2, hb1, hb2⟩, ?_, ?_⟩
  · rintro pre2 k3 ds3 post3 ⟨hurl3, hk3, hds3, hdig3, hpre3, hpost3⟩
    exact hmin1 pre2 (k3 ++ '=' :: (ds3 ++ post3))
      (by rw [hurl3, List.append_assoc]) hpre3
      (tryMatch1At_complete f k3 ds3 post3 hk3 hds3 hdig3 hpost3)
  · simp only [replacer1]
    rw [hscan1, hrep]
    simp only [List.append_assoc, List.singleton_append, List.cons_append,
      List.nil_append]

theorem replacer2_found (f : JsNum → JsNum) (url : List Char)
    (hex : ∃ pre k ds post, PageSegOcc url pre k ds post) :
    ∃ pre k ds post, PageSegOcc url pre k ds post ∧
      (∀ pre2 k2 ds2 post2, PageSegOcc url pre2 k2 ds2 post2 →
        pre.length ≤ pre2.length) ∧
      replacer2 f url = pre ++ k ++
        (padSame ds (jsNumToChars (f (.num (digitsToNat ds : Int)))) ++ post) := by
  obtain ⟨pre0, k0, ds0, post0, hurl0, hk0, hds0, hdig0, hpre0, hpost0⟩ := hex
  have hexs : ∃ pre1 suf1, url = pre1 ++ suf1 ∧ wordState false pre1 = false ∧
      (tryMatch2At f suf1).isSome = true :=
    ⟨pre0, k0 ++ (ds0 ++ post0), by rw [hurl0, List.append_assoc], hpre0,
      tryMatch2At_complete f k0 ds0 post0 hk0 hds0 hdig0 hpost0⟩
  obtain ⟨pre1, suf1, rep, rest, hs1, hb1, htry1, hscan1, hmin1⟩ :=
    scanWith_found (tryMatch2At f) (tryMatch2At_nil f) url false hexs
  obtain ⟨k2, ds2, hk2, hds2, hdig2, hb2, hsuf1, hrep⟩ :=
    tryMatch2At_sound f suf1 rep rest htry1
  have hurl2 : url = pre1 ++ k2 ++ (ds2 ++ rest) := by
    rw [hs1, hsuf1, ← List.append_assoc]
  refine ⟨pre1, k2, ds2, rest, ⟨hurl2, hk2, hds2, hdig2, hb1, hb2⟩, ?_, ?_⟩
  · rintro pre2 k3 ds3 post3 ⟨hurl3, hk3, hds3, hdig3, hpre3, hpost3⟩
    exact hmin1 pre2 (k3 ++ (ds3 ++ post3))
      (by rw [hurl3, List.append_assoc]) hpre3
      (tryMatch2At_complete f k3 ds3 post3 hk3 hds3 hdig3 hpost3)
  · simp only [replacer2]
    rw [hscan1, hrep]
    simp only [List.append_assoc]

/-! ## Claim C1 -/

/-- Claim C1: for every URL containing a whole-word `page=`/`p=`
parameter whose value is a digit run `D` (`QueryParamOcc`),
`alterPageNumber` with the increment transform succeeds via the
query-parameter strategy, and its output is the same URL in which one
such occurrence's digit run is replaced by `D + 1` formatted with the
original padding width (`padSame`) — the key itself and every character
outside the digit run unchanged.  (When several occurrences match, the
leftmost is the one rewritten; that refinement is the C10 theorem.) -/
theorem alterPageNumber_query_param (url pre k ds post : List Char)
    (hocc : QueryParamOcc url pre k ds post) :
    ∃ pre2 k2 ds2 post2, QueryParamOcc url pre2 k2 ds2 post2 ∧
      alterPageNumber incTransform url =
        some (pre2 ++ k2 ++ '=' ::
          (padSame ds2 (natToDigits (digitsToNat ds2 + 1)) ++ post2)) := by
  obtain ⟨pre1, k2, ds2, rest, hocc2, _, hout⟩ :=
    replacer1_found incTransform url ⟨pre, k, ds, post, hocc⟩
  have hout' : replacer1 incTransform url =
      pre1 ++ k2 ++ '=' ::
        (padSame ds2 (natToDigits (digitsToNat ds2 + 1)) ++ rest) := by
    rw [hout, jsNumToChars_inc_nat]
  have hne : replacer1 incTransform url ≠ url := by
    rw [hout', hocc2.1]
    intro heq
    have h1 := List.append_cancel_left heq
    injection h1 with _ h3
    have h4 := List.append_cancel_right h3
    exact padSame_natToDigits_ne ds2 (digitsToNat ds2 + 1) (by omega) h4
  have halter : alterPageNumber incTransform url =
      some (replacer1 incTransform url) := by
    unfold alterPageNumber
    rw [if_pos hne]
  exact ⟨pre1, k2, ds2, rest, hocc2, by rw [halter, hout']⟩

/-- Witness for `alterPageNumber_query_param` on
`/items/42?page=1`. -/
theorem alterPageNumber_query_param_witness :
    QueryParamOcc ("/items/42?page=1".data) ("/items/42?".data) ("page".data)
      ['1'] [] ∧
    ∃ pre2 k2 ds2 post2,
      QueryParamOcc ("/items/42?page=1".data) pre2 k2 ds2 post2 ∧
      alterPageNumber incTransform ("/items/42?page=1".data) =
        some (pre2 ++ k2 ++ '=' ::
          (padSame ds2 (natToDigits (digitsToNat ds2 + 1)) ++ post2)) :=
  ⟨by decide,
    alterPageNumber_query_param ("/items/42?page=1".data) ("/items/42?".data)
      ("page".data) ['1'] [] (by decide)⟩

/-! ## Claim C10 -/

/-- Claim C10: the query-parameter and named-segment strategies replace
only the leftmost match.  For any URL admitting an occurrence, the
rewritten occurrence is at minimal position among all occurrences, and
the output is the input with exactly that occurrence's digit run
replaced — every character before it (`pre`) and after it (`post`),
including every later occurrence, is unchanged.  The concrete conjuncts
show a URL with two `page=N` parameters and one with two `pageN` path
markers. -/
theorem replacers_rewrite_leftmost :
    (∀ (f : JsNum → JsNum) (url : List Char),
      ((∃ pre k ds post, QueryParamOcc url pre k ds post) →
        ∃ pre k ds post, QueryParamOcc url pre k ds post ∧
          (∀ pre2 k2 ds2 post2, QueryParamOcc url pre2 k2 ds2 post2 →
            pre.length ≤ pre2.length) ∧
          replacer1 f url = pre ++ k ++ '=' ::
            (padSame ds (jsNumToChars (f (.num (digitsToNat ds : Int)))) ++
              post)) ∧
      ((∃ pre k ds post, PageSegOcc url pre k ds post) →
        ∃ pre k ds post, PageSegOcc url pre k ds post ∧
          (∀ pre2 k2 ds2 post2, PageSegOcc url pre2 k2 ds2 post2 →
            pre.length ≤ pre2.length) ∧
          replacer2 f url = pre ++ k ++
            (padSame ds (jsNumToChars (f (.num (digitsToNat ds : Int)))) ++
              post))) ∧
    replacer1 incTransform ("/a?page=1&page=2".data) =
      ("/a?page=2&page=2".data) ∧
    replacer2 incTransform ("/x/page3/page4".data) =
      ("/x/page4/page4".data) :=
  ⟨fun f url => ⟨replacer1_found f url, replacer2_found f url⟩,
    by decide, by decide⟩

/-- Witness for the implications inside `replacers_rewrite_leftmost`,
instantiated on the two-parameter URL `/a?page=1&page=2`. -/
theorem replacers_rewrite_leftmost_witness :
    QueryParamOcc ("/a?page=1&page=2".data) ("/a?".data) ("page".data)
      ['1'] ("&page=2".data) ∧
    ∃ pre k ds post, QueryParamOcc ("/a?page=1&page=2".data) pre k ds post ∧
      (∀ pre2 k2 ds2 post2,
        QueryParamOcc ("/a?page=1&page=2".data) pre2 k2 ds2 post2 →
        pre.length ≤ pre2.length) ∧
      replacer1 incTransform ("/a?page=1&page=2".data) = pre ++ k ++ '=' ::
        (padSame ds
          (jsNumToChars (incTransform (.num (digitsToNat ds : Int)))) ++
          post) :=
  ⟨by decide,
    (replacers_rewrite_leftmost.1 incTransform ("/a?page=1&page=2".data)).1
      ⟨("/a?".data), ("page".data), ['1'], ("&page=2".data), by decide⟩⟩

/-! ## Claim C2 -/

/-- Claim C2: at most one strategy's replacement is applied per
invocation.  The strategies are consulted in the fixed order
query-parameter, named-segment, generic; the first whose output differs
from its input alone determines the result, and once a strategy matches,
the later ones have no effect on the result.  On a URL carrying both a
`page=1` query parameter and a bare trailing path digit run, the query
parameter wins and the path digits stay unchanged. -/
theorem alterPageNumber_first_match :
    (∀ (f : JsNum → JsNum) (url : List Char),
      (replacer1 f url ≠ url → alterPageNumber f url = some (replacer1 f url)) ∧
      (replacer1 f url = url → replacer2 f url ≠ url →
        alterPageNumber f url = some (replacer2 f url)) ∧
      (replacer1 f url = url → replacer2 f url = url → replacer3 f url ≠ url →
        alterPageNumber f url = some (replacer3 f url)) ∧
      (replacer1 f url = url → replacer2 f url = url → replacer3 f url = url →
        alterPageNumber f url = none)) ∧
    alterPageNumber incTransform ("/items/42?page=1".data) =
      some ("/items/42?page=2".data) := by
  constructor
  · intro f url
    refine ⟨fun h1 => ?_, fun h1 h2 => ?_, fun h1 h2 h3 => ?_,
      fun h1 h2 h3 => ?_⟩
    · unfold alterPageNumber
      rw [if_pos h1]
    · unfold alterPageNumber
      rw [if_neg (by simp [h1]), if_pos h2]
    · unfold alterPageNumber
      rw [if_neg (by simp [h1]), if_neg (by simp [h2]), if_pos h3]
    · unfold alterPageNumber
      rw [if_neg (by simp [h1]), if_neg (by simp [h2]), if_neg (by simp [h3])]
  · decide

/-- Witness for the implications inside `alterPageNumber_first_match`:
on `/items/42?page=1` the first strategy matches and decides the
result. -/
theorem alterPageNumber_first_match_witness :
    replacer1 incTransform ("/items/42?page=1".data) ≠
      ("/items/42?page=1".data) ∧
    alterPageNumber incTransform ("/items/42?page=1".data) =
      some (replacer1 incTransform ("/items/42?page=1".data)) :=
  ⟨by decide,
    (alterPageNumber_first_match.1 incTransform
      ("/items/42?page=1".data)).1 (by decide)⟩

/-! ## Claim C6: URLs without digits are never rewritten -/

theorem replacer1_id_of_noDigits (f : JsNum → JsNum) (url : List Char)
    (hnd : ∀ c ∈ url, c.isDigit = false) : replacer1 f url = url := by
  simp only [replacer1]
  apply scanWith_id
  intro pre suf hsplit
  cases htry : tryMatch1At f suf with
  | none => rfl
  | some r =>
    obtain ⟨rep, rest⟩ := r
    obtain ⟨k, ds, hk, hds, hdig, hb, hsuf, hrep⟩ :=
      tryMatch1At_sound f suf rep rest htry
    rcases ds with _ | ⟨d, ds'⟩
    · exact absurd rfl hds
    · have hd : d.isDigit = true := by
        rw [List.all_cons, Bool.and_eq_true] at hdig
        exact hdig.1
      have hmem : d ∈ url := by
        rw [hsplit, hsuf]
        simp
      rw [hnd d hmem] at hd
      exact Bool.noConfusion hd

theorem replacer2_id_of_noDigits (f : JsNum → JsNum) (url : List Char)
    (hnd : ∀ c ∈ url, c.isDigit = false) : replacer2 f url = url := by
  simp only [replacer2]
  apply scanWith_id
  intro pre suf hsplit
  cases htry : tryMatch2At f suf with
  | none => rfl
  | some r =>
    obtain ⟨rep, rest⟩ := r
    obtain ⟨k, ds, hk, hds, hdig, hb, hsuf, hrep⟩ :=
      tryMatch2At_sound f suf rep rest htry
    rcases ds with _ | ⟨d, ds'⟩
    · exact absurd rfl hds
    · have hd : d.isDigit = true := by
        rw [List.all_cons, Bool.and_eq_true] at hdig
        exact hdig.1
      have hmem : d ∈ url := by
        rw [hsplit, hsuf]
        simp
      rw [hnd d hmem] at hd
      exact Bool.noConfusion hd

theorem splitSegs_of_noDigits (s : List Char)
    (hnd : ∀ c ∈ s, c.isDigit = false) : splitSegs s = [s] := by
  induction s with
  | nil => rfl
  | cons c cs ih =>
    have hc : c.isDigit = false := hnd c (by simp)
    have ih' := ih (fun x hx => hnd x (by simp [hx]))
    simp [splitSegs, hc, ih']

theorem lastPathSegment_singleton (seg : List Char) :
    lastPathSegment [seg] = 0 := by
  simp [lastPathSegment, lastPathSegmentAux]

theorem trimJs_head_of_not_ws (c : Char) (t : List Char)
    (hc : jsWhitespace c = false) :
    (trimJs (c :: t)).head? = some c := by
  unfold trimJs
  rw [List.dropWhile_cons, hc]
  simp only [Bool.false_eq_true, if_false, List.reverse_cons,
    List.dropWhile_append]
  split_ifs with hemp
  · simp [List.dropWhile_cons, hc]
  · simp

theorem validSegValue_of_slash_head (s : List Char) (hhead : s.head? = some '/')
    (hnd : ∀ c ∈ s, c.isDigit = false) : validSegValue s = none := by
  rcases s with _ | ⟨c, t⟩
  · exact absurd hhead (by simp)
  · have hc : c = '/' := by simpa using hhead
    subst hc
    have hdig : Char.isDigit '/' = false := by decide
    have hws : jsWhitespace '/' = false := by decide
    have h1 : (('/' :: t).all Char.isDigit) = false := by
      rw [List.all_cons, hdig]
      rfl
    have h2 : (('/' :: t).all jsWhitespace) = false := by
      rw [List.all_cons, hws]
      rfl
    have h3 : (trimJs ('/' :: t)).head? = some '/' :=
      trimJs_head_of_not_ws '/' t hws
    have h4 : ¬(trimJs ('/' :: t) = "Infinity".data ∨
        trimJs ('/' :: t) = "+Infinity".data) := by
      rintro (h | h) <;> rw [h] at h3 <;> exact absurd h3 (by decide)
    unfold validSegValue
    rw [if_neg (by simp), if_neg (by simp [h1]), if_neg (by simp [h2]),
      if_neg h4]

/-- Claim C6: for every transform, a URL (path+query+fragment, hence
beginning with `/`) containing no digit characters is matched by none of
the three strategies — each replacer returns its input unchanged — and
`alterPageNumber` returns `false` (modelled `none`): no navigation
occurs. -/
theorem alterPageNumber_noDigits (f : JsNum → JsNum) (url : List Char)
    (hnd : ∀ c ∈ url, c.isDigit = false) (hhead : url.head? = some '/') :
    replacer1 f url = url ∧ replacer2 f url = url ∧ replacer3 f url = url ∧
      alterPageNumber f url = none := by
  have h1 := replacer1_id_of_noDigits f url hnd
  have h2 := replacer2_id_of_noDigits f url hnd
  have h3 : replacer3 f url = url := by
    unfold replacer3
    rw [splitSegs_of_noDigits url hnd, lastPathSegment_singleton]
    have hv : validSegValue url = none :=
      validSegValue_of_slash_head url hhead hnd
    simp [backScan, fwdScan, fwdScanAux, scanSegAt, hv]
  refine ⟨h1, h2, h3, ?_⟩
  unfold alterPageNumber
  rw [if_neg (by simp [h1]), if_neg (by simp [h2]), if_neg (by simp [h3])]

/-- Witness for `alterPageNumber_noDigits` on the digit-free URL
`/abc/def?x=y`. -/
theorem alterPageNumber_noDigits_witness :
    ("/abc/def?x=y".data).head? = some '/' ∧
    alterPageNumber incTransform ("/abc/def?x=y".data) = none :=
  ⟨by decide,
    (alterPageNumber_noDigits incTransform ("/abc/def?x=y".data)
      (by decide) (by decide)).2.2.2⟩

/-! ## Claim C3: directionality of the generic fallback -/

theorem backScan_eq_of (f : JsNum → JsNum) (segs : List (List Char)) :
    ∀ i j, j ≤ i → (scanSegAt f segs j).isSome = true →
      (∀ j2, j < j2 → j2 ≤ i → scanSegAt f segs j2 = none) →
      backScan f segs i = scanSegAt f segs j
  | 0, j, hle, _, _ => by
    have hj : j = 0 := Nat.le_zero.mp hle
    subst hj
    rfl
  | i + 1, j, hle, hsome, hnone => by
    by_cases hj : j = i + 1
    · subst hj
      obtain ⟨r, hr⟩ := Option.isSome_iff_exists.mp hsome
      simp [backScan, hr]
    · have hji : j ≤ i := by omega
      have hnone1 : scanSegAt f segs (i + 1) = none :=
        hnone (i + 1) (by omega) (by omega)
      have ih := backScan_eq_of f segs i j hji hsome
        (fun j2 h1 h2 => hnone j2 h1 (by omega))
      simp [backScan, hnone1, ih]

theorem backScan_none (f : JsNum → JsNum) (segs : List (List Char)) :
    ∀ i, (∀ j, j ≤ i → scanSegAt f segs j = none) →
      backScan f segs i = none
  | 0, hnone => by
    have h0 := hnone 0 (le_refl 0)
    simp [backScan, h0]
  | i + 1, hnone => by
    have h1 := hnone (i + 1) (le_refl (i + 1))
    have ih := backScan_none f segs i (fun j hj => hnone j (by omega))
    simp [backScan, h1, ih]

theorem fwdScanAux_eq_of (f : JsNum → JsNum) (segs : List (List Char)) :
    ∀ fuel i j, i ≤ j → j < i + fuel → (scanSegAt f segs j).isSome = true →
      (∀ j2, i ≤ j2 → j2 < j → scanSegAt f segs j2 = none) →
      fwdScanAux f segs i fuel = scanSegAt f segs j
  | 0, i, j, h1, h2, _, _ => by omega
  | fuel + 1, i, j, h1, h2, hsome, hnone => by
    by_cases hij : i = j
    · subst hij
      obtain ⟨r, hr⟩ := Option.isSome_iff_exists.mp hsome
      simp [fwdScanAux, hr]
    · have hnone0 : scanSegAt f segs i = none :=
        hnone i (le_refl i) (by omega)
      have ih := fwdScanAux_eq_of f segs fuel (i + 1) j (by omega) (by omega)
        hsome (fun j2 ha hb => hnone j2 (by omega) hb)
      simp [fwdScanAux, hnone0, ih]

/-- Claim C3: in the generic fallback, the digit segments are scanned
from `lastPathSegment` backward to the start, and the transform is
applied to the first segment passing the `value >= 0` test (so the
rightmost valid path segment changes, as in `/archive/2020/15/` where
`15`, not `2020`, becomes `16`); only if no path segment is valid does a
forward scan from `lastPathSegment` transform the first (leftmost) valid
segment of the query/fragment, as in `/x?a=1&b=2` where only `a`'s value
changes. -/
theorem replacer3_directionality :
    (∀ (f : JsNum → JsNum) (url : List Char) (j : Nat) (v : JsNum),
      j ≤ lastPathSegment (splitSegs url) →
      validSegValue ((splitSegs url).getD j []) = some v →
      (∀ j2, j < j2 → j2 ≤ lastPathSegment (splitSegs url) →
        validSegValue ((splitSegs url).getD j2 []) = none) →
      replacer3 f url =
        ((splitSegs url).set j
          (padSame ((splitSegs url).getD j [])
            (jsNumToChars (f v)))).flatten) ∧
    (∀ (f : JsNum → JsNum) (url : List Char) (j : Nat) (v : JsNum),
      (∀ j2, j2 ≤ lastPathSegment (splitSegs url) →
        validSegValue ((splitSegs url).getD j2 []) = none) →
      lastPathSegment (splitSegs url) ≤ j → j < (splitSegs url).length →
      validSegValue ((splitSegs url).getD j []) = some v →
      (∀ j2, lastPathSegment (splitSegs url) ≤ j2 → j2 < j →
        validSegValue ((splitSegs url).getD j2 []) = none) →
      replacer3 f url =
        ((splitSegs url).set j
          (padSame ((splitSegs url).getD j [])
            (jsNumToChars (f v)))).flatten) ∧
    replacer3 incTransform ("/archive/2020/15/".data) =
      ("/archive/2020/16/".data) ∧
    replacer3 incTransform ("/x?a=1&b=2".data) = ("/x?a=2&b=2".data) := by
  refine ⟨?_, ?_, by decide, by decide⟩
  · intro f url j v hle hv hnone
    have hseg : scanSegAt f (splitSegs url) j =
        some ((splitSegs url).set j
          (padSame ((splitSegs url).getD j []) (jsNumToChars (f v)))) := by
      unfold scanSegAt
      rw [hv]
    have hnone' : ∀ j2, j < j2 → j2 ≤ lastPathSegment (splitSegs url) →
        scanSegAt f (splitSegs url) j2 = none :=
      fun j2 h1 h2 => by
        unfold scanSegAt
        rw [hnone j2 h1 h2]
    unfold replacer3
    rw [backScan_eq_of f (splitSegs url) (lastPathSegment (splitSegs url)) j
      hle (by rw [hseg]; rfl) hnone', hseg]
  · intro f url j v hnoneAll hgej hlt hv hnoneFwd
    have hseg : scanSegAt f (splitSegs url) j =
        some ((splitSegs url).set j
          (padSame ((splitSegs url).getD j []) (jsNumToChars (f v)))) := by
      unfold scanSegAt
      rw [hv]
    have hback : backScan f (splitSegs url)
        (lastPathSegment (splitSegs url)) = none :=
      backScan_none f (splitSegs url) (lastPathSegment (splitSegs url))
        (fun j2 hj2 => by
          unfold scanSegAt
          rw [hnoneAll j2 hj2])
    have hfwd : fwdScan f (splitSegs url) (lastPathSegment (splitSegs url)) =
        scanSegAt f (splitSegs url) j := by
      unfold fwdScan
      exact fwdScanAux_eq_of f (splitSegs url)
        ((splitSegs url).length - lastPathSegment (splitSegs url))
        (lastPathSegment (splitSegs url)) j hgej (by omega)
        (by rw [hseg]; rfl)
        (fun j2 ha hb => by
          unfold scanSegAt
          rw [hnoneFwd j2 ha hb])
    unfold replacer3
    rw [hback, hfwd, hseg]

/-- Witness for `replacer3_directionality` on `/archive/2020/15/`,
rightmost path digit segment at index `3`. -/
theorem replacer3_directionality_witness :
    validSegValue ((splitSegs ("/archive/2020/15/".data)).getD 3 []) =
      some (.num 15) ∧
    replacer3 incTransform ("/archive/2020/15/".data) =
      ((splitSegs ("/archive/2020/15/".data)).set 3
        (padSame ((splitSegs ("/archive/2020/15/".data)).getD 3 [])
          (jsNumToChars (incTransform (.num 15))))).flatten :=
  ⟨by decide,
    replacer3_directionality.1 incTransform ("/archive/2020/15/".data) 3
      (.num 15) (by decide) (by decide)
      (fun j2 h1 h2 => by
        have h4 : lastPathSegment (splitSegs ("/archive/2020/15/".data)) = 4 :=
          by decide
        have hj : j2 = 4 := by omega
        subst hj
        decide)⟩
